import Mathlib

/-!
Verification of the bunblaze HTTP caching gateway against its specification.

The TypeScript sources are shallowly embedded: byte sequences (`Uint8Array`,
`Buffer`) become `List Nat` of code points (exact on the ASCII subset that all
concrete inputs here use), JavaScript `Headers` objects become canonical
association lists (lowercased names, duplicates combined with ", ", entries
sorted by name — the observable behaviour of `Headers.entries()`), and the
external codec binaries (the brotli CLI, Bun's zlib) are parameters of the
embedding, constrained only where a theorem needs their round-trip property.

All string utilities are re-implemented structurally over `List Char` so that
every definition evaluates by kernel reduction (`decide` / `rfl`).
-/

namespace Bunblaze

/-- Byte sequences. JS `Uint8Array` / `Buffer` values are modelled as lists of
natural numbers at code-point granularity (exact on ASCII data). -/
abbrev Bytes := List Nat

/-- UTF-8 encoding of a string, modelled at code-point granularity
(`Buffer.from(s, "utf-8")`; exact on the ASCII subset). -/
def strBytes (s : String) : Bytes := s.data.map Char.toNat

/-- UTF-8 decoding of bytes, modelled at code-point granularity
(`buffer.toString("utf-8")` / `TextDecoder.decode`; exact on ASCII). -/
def bytesStr (l : Bytes) : String := String.mk (l.map Char.ofNat)

/-- ASCII lower-casing of a character (JS `toLowerCase`, modelled on ASCII). -/
def charLower (c : Char) : Char :=
  if 'A' ≤ c ∧ c ≤ 'Z' then Char.ofNat (c.toNat + 32) else c

/-- ASCII upper-casing of a character (JS `toUpperCase`, modelled on ASCII). -/
def charUpper (c : Char) : Char :=
  if 'a' ≤ c ∧ c ≤ 'z' then Char.ofNat (c.toNat - 32) else c

/-- JS `String.prototype.toLowerCase` (ASCII model). -/
def strLower (s : String) : String := String.mk (s.data.map charLower)

/-- JS `String.prototype.toUpperCase` (ASCII model). -/
def strUpper (s : String) : String := String.mk (s.data.map charUpper)

/-- JS `String.prototype.trim` on a char list: strip whitespace at both ends. -/
def trimChars (l : List Char) : List Char :=
  ((l.dropWhile Char.isWhitespace).reverse.dropWhile Char.isWhitespace).reverse

/-- JS `String.prototype.trim`. -/
def strTrim (s : String) : String := String.mk (trimChars s.data)

/-- Split a char list at every occurrence of the character `c`
(JS `String.prototype.split` with a one-character separator). -/
def splitOnChar (c : Char) : List Char → List (List Char)
  | [] => [[]]
  | x :: r =>
    match splitOnChar c r with
    | h :: t => if x = c then [] :: h :: t else (x :: h) :: t
    | [] => [[x]]

/-- JS `String.prototype.split` with a one-character separator. -/
def strSplitChar (s : String) (c : Char) : List String :=
  (splitOnChar c s.data).map String.mk

/-- Join strings with a separator (JS `Array.prototype.join`). -/
def joinSep (sep : String) : List String → String
  | [] => ""
  | [x] => x
  | x :: y :: r => x ++ sep ++ joinSep sep (y :: r)

/-- JS `Uint8Array.prototype.toString`: the elements rendered in decimal and
joined with commas (inherited from `Array.prototype.toString`). -/
def uint8ToString (l : Bytes) : String := joinSep "," (l.map toString)

/-- Helper for `strIncludes`: does `sub` occur as a contiguous run in `l`? -/
def inclAux (sub : List Char) : List Char → Bool
  | [] => sub.isPrefixOf ([] : List Char)
  | c :: r => sub.isPrefixOf (c :: r) || inclAux sub r

/-- JS `String.prototype.includes`: substring containment. -/
def strIncludes (s sub : String) : Bool := inclAux sub.data s.data

/-- Round trip of the code-point byte model on any string. -/
theorem bytesStr_strBytes (s : String) : bytesStr (strBytes s) = s := by
  simp [bytesStr, strBytes, List.map_map, Function.comp_def, Char.ofNat_toNat]

/-! ## JS `Headers` model

A `Headers` object normalises names to lower case, combines duplicate names
(joined with ", ") and iterates entries sorted lexicographically by name.
We model a `Headers` value by the entry list that `Array.from(h.entries())`
would produce. -/

/-- Code-point lexicographic comparison of char lists. -/
def listLt : List Char → List Char → Bool
  | [], [] => false
  | [], _ :: _ => true
  | _ :: _, [] => false
  | a :: as, b :: bs =>
    if a.toNat < b.toNat then true
    else if b.toNat < a.toNat then false
    else listLt as bs

/-- Code-point lexicographic comparison of strings. -/
def strLt (a b : String) : Bool := listLt a.data b.data

/-- Insert a name into an ascending list of names. -/
def insertAsc (n : String) : List String → List String
  | [] => [n]
  | m :: r => if strLt n m then n :: m :: r else m :: insertAsc n r

/-- Sorted, duplicate-free list of the given names. -/
def sortedNames (l : List String) : List String := l.dedup.foldr insertAsc []

/-- The values a JS `Headers` object holds for a (lowercased) name `k`, in
insertion order. -/
def valuesFor (l : List (String × String)) (k : String) : List String :=
  l.filterMap (fun p => if strLower p.1 = k then some p.2 else none)

/-- Canonical entry list of a JS `Headers` built from an association list:
names lowercased, duplicate names combined with ", " in insertion order,
entries sorted by name (the iteration order of `Headers.entries()`). -/
def hCanon (l : List (String × String)) : List (String × String) :=
  (sortedNames (l.map (fun p => strLower p.1))).map
    (fun n => (n, joinSep ", " (valuesFor l n)))

/-- JS `headers.get(name)` on a `Headers` built from the list `l`: the
", "-combined values for the lowercased name, or `none` when absent
(JS `null`). -/
def hGet (l : List (String × String)) (n : String) : Option String :=
  match valuesFor l (strLower n) with
  | [] => none
  | v :: vs => some (joinSep ", " (v :: vs))

/-- JS `headers.get(name) || dflt`: note that both `null` and the empty string
are falsy in JS. -/
def hGetD (l : List (String × String)) (n dflt : String) : String :=
  match hGet l n with
  | some s => if s = "" then dflt else s
  | none => dflt

/-- Drop every entry whose lowercased name matches `n` (the replacement step
of JS `headers.set`). -/
def hRemove (n : String) : List (String × String) → List (String × String)
  | [] => []
  | p :: r => if strLower p.1 = strLower n then hRemove n r else p :: hRemove n r

/-- JS `headers.set(name, value)` followed by `Array.from(headers.entries())`:
all values for the name are replaced by the single given value. -/
def hSet (l : List (String × String)) (n v : String) : List (String × String) :=
  hCanon (hRemove n l ++ [(n, v)])

example : hCanon [("B", "x"), ("a", "y"), ("b", "z")] =
    [("a", "y"), ("b", "x, z")] := by decide
example : hGet [("X-Cache", "HIT")] "x-cache" = some "HIT" := by decide
example : hSet [] "X-Cache" "HIT" = [("x-cache", "HIT")] := by decide
example : strIncludes "http://h/a/favicon.ico" "/favicon.ico" = true := by decide
example : (strSplitChar "br, gzip" ',').map strTrim = ["br", "gzip"] := by decide

/-! ### Laws of the `Headers` model -/

theorem toNat_ofNat_valid (n : Nat) (h : n < 55296) : (Char.ofNat n).toNat = n := by
  simp [Char.ofNat, Nat.isValidChar, h, Char.toNat, Char.ofNatAux, UInt32.ofNat',
    UInt32.toNat]

theorem char_le_iff (a b : Char) : a ≤ b ↔ a.toNat ≤ b.toNat := Iff.rfl

theorem charLower_idem (c : Char) : charLower (charLower c) = charLower c := by
  unfold charLower
  by_cases h : 'A' ≤ c ∧ c ≤ 'Z'
  · rw [if_pos h]
    have h1 : 65 ≤ c.toNat := (char_le_iff 'A' c).1 h.1
    have h2 : c.toNat ≤ 90 := (char_le_iff c 'Z').1 h.2
    have hv : (Char.ofNat (c.toNat + 32)).toNat = c.toNat + 32 :=
      toNat_ofNat_valid _ (by omega)
    rw [if_neg]
    intro hc
    have ha := (char_le_iff 'A' _).1 hc.1
    have hb := (char_le_iff _ 'Z').1 hc.2
    rw [hv] at ha hb
    have hA : ('A' : Char).toNat = 65 := rfl
    have hZ : ('Z' : Char).toNat = 90 := rfl
    omega
  · rw [if_neg h, if_neg h]

theorem strLower_idem (s : String) : strLower (strLower s) = strLower s := by
  simp [strLower, List.map_map, Function.comp_def, charLower_idem]

theorem insertAsc_perm (n : String) (l : List String) :
    List.Perm (insertAsc n l) (n :: l) := by
  induction l with
  | nil => exact List.Perm.refl _
  | cons m r ih =>
    unfold insertAsc
    split
    · exact List.Perm.refl _
    · exact (List.Perm.cons m ih).trans (List.Perm.swap n m r)

theorem foldr_insertAsc_perm (xs : List String) :
    List.Perm (xs.foldr insertAsc []) xs := by
  induction xs with
  | nil => exact List.Perm.refl _
  | cons x r ih =>
    exact (insertAsc_perm x (r.foldr insertAsc [])).trans (List.Perm.cons x ih)

theorem mem_sortedNames {m : String} {l : List String} :
    m ∈ sortedNames l ↔ m ∈ l :=
  ((foldr_insertAsc_perm l.dedup).mem_iff).trans (List.mem_dedup)

theorem nodup_sortedNames (l : List String) : (sortedNames l).Nodup :=
  ((foldr_insertAsc_perm l.dedup).nodup_iff).2 l.nodup_dedup

theorem valuesFor_cons (p : String × String) (r : List (String × String)) (k : String) :
    valuesFor (p :: r) k =
      if strLower p.1 = k then p.2 :: valuesFor r k else valuesFor r k := by
  simp only [valuesFor, List.filterMap_cons]
  split <;> simp_all

theorem valuesFor_append (a b : List (String × String)) (k : String) :
    valuesFor (a ++ b) k = valuesFor a k ++ valuesFor b k := by
  simp [valuesFor, List.filterMap_append]

theorem valuesFor_ne_nil_iff (l : List (String × String)) (k : String) :
    valuesFor l k ≠ [] ↔ k ∈ l.map (fun p => strLower p.1) := by
  induction l with
  | nil => simp [valuesFor]
  | cons p r ih =>
    rw [valuesFor_cons, List.map_cons, List.mem_cons]
    by_cases h : strLower p.1 = k
    · simp [h]
    · rw [if_neg h, or_iff_right (fun hc : k = strLower p.1 => h hc.symm)]
      exact ih

theorem filterMap_ite_nil {β : Type} (f : String → β) (k : String) :
    ∀ ns : List String, k ∉ ns →
      ns.filterMap (fun n => if n = k then some (f n) else none) = [] := by
  intro ns
  induction ns with
  | nil => intro _; rfl
  | cons n r ih =>
    intro h
    simp only [List.mem_cons, not_or] at h
    rw [List.filterMap_cons, if_neg (fun hc : n = k => h.1 hc.symm)]
    exact ih h.2

theorem filterMap_ite_of_nodup {β : Type} (f : String → β) (k : String) :
    ∀ (ns : List String), ns.Nodup →
      ns.filterMap (fun n => if n = k then some (f n) else none) =
        if k ∈ ns then [f k] else [] := by
  intro ns
  induction ns with
  | nil => intro _; rfl
  | cons n r ih =>
    intro hnd
    rw [List.filterMap_cons]
    by_cases h : n = k
    · subst h
      rw [if_pos rfl, filterMap_ite_nil f n r (List.nodup_cons.1 hnd).1,
        if_pos (List.mem_cons_self n r)]
    · rw [if_neg h, ih (List.nodup_cons.1 hnd).2]
      by_cases hk : k ∈ r
      · rw [if_pos hk, if_pos (List.mem_cons_of_mem n hk)]
      · rw [if_neg hk, if_neg (fun hm => by
          rcases List.mem_cons.1 hm with h1 | h2
          · exact h h1.symm
          · exact hk h2)]

theorem valuesFor_hCanon (l : List (String × String)) (k : String) :
    valuesFor (hCanon l) k =
      if valuesFor l k = [] then [] else [joinSep ", " (valuesFor l k)] := by
  unfold hCanon
  rw [show valuesFor ((sortedNames (l.map (fun p => strLower p.1))).map
      (fun n => (n, joinSep ", " (valuesFor l n)))) k =
    (sortedNames (l.map (fun p => strLower p.1))).filterMap
      (fun n => if strLower n = k then some (joinSep ", " (valuesFor l n)) else none)
    from by simp [valuesFor, List.filterMap_map, Function.comp_def]]
  rw [List.filterMap_congr (g := fun n =>
      if n = k then some (joinSep ", " (valuesFor l n)) else none)
    (by
      intro n hn
      have hmem : n ∈ l.map (fun p => strLower p.1) := mem_sortedNames.1 hn
      obtain ⟨p, _, hp⟩ := List.mem_map.1 hmem
      rw [← hp, strLower_idem])]
  rw [filterMap_ite_of_nodup _ _ _ (nodup_sortedNames _)]
  by_cases h : valuesFor l k = []
  · rw [if_pos h,
      if_neg (fun hmem => ((valuesFor_ne_nil_iff l k).2 (mem_sortedNames.1 hmem)) h)]
  · rw [if_neg h, if_pos (mem_sortedNames.2 ((valuesFor_ne_nil_iff l k).1 h))]

theorem hGet_hCanon (l : List (String × String)) (m : String) :
    hGet (hCanon l) m = hGet l m := by
  unfold hGet
  rw [valuesFor_hCanon]
  by_cases h : valuesFor l (strLower m) = []
  · simp [h]
  · obtain ⟨v, vs, hv⟩ := List.exists_cons_of_ne_nil h
    rw [if_neg h, hv]
    rfl

theorem valuesFor_hRemove_self (l : List (String × String)) (n : String) :
    valuesFor (hRemove n l) (strLower n) = [] := by
  induction l with
  | nil => rfl
  | cons p r ih =>
    unfold hRemove
    by_cases h : strLower p.1 = strLower n
    · rw [if_pos h]; exact ih
    · rw [if_neg h, valuesFor_cons, if_neg h]; exact ih

theorem valuesFor_hRemove_ne (l : List (String × String)) (n : String) (k : String)
    (h : k ≠ strLower n) :
    valuesFor (hRemove n l) k = valuesFor l k := by
  induction l with
  | nil => rfl
  | cons p r ih =>
    unfold hRemove
    by_cases hp : strLower p.1 = strLower n
    · rw [if_pos hp, valuesFor_cons, if_neg (fun hc : strLower p.1 = k =>
        h (hc.symm.trans hp))]
      exact ih
    · rw [if_neg hp, valuesFor_cons, valuesFor_cons, ih]

theorem hGet_hSet_same (l : List (String × String)) (n v m : String)
    (h : strLower m = strLower n) : hGet (hSet l n v) m = some v := by
  unfold hSet
  rw [hGet_hCanon]
  unfold hGet
  rw [h, valuesFor_append, valuesFor_hRemove_self, valuesFor_cons]
  simp [joinSep, valuesFor]

theorem hGet_hSet_ne (l : List (String × String)) (n v m : String)
    (h : strLower m ≠ strLower n) : hGet (hSet l n v) m = hGet l m := by
  unfold hSet
  rw [hGet_hCanon]
  unfold hGet
  rw [valuesFor_append, valuesFor_hRemove_ne l n _ h, valuesFor_cons]
  rw [if_neg (fun hc : strLower n = strLower m => h hc.symm)]
  simp [valuesFor]

theorem hGetD_hSet_ne (l : List (String × String)) (n v m dflt : String)
    (h : strLower m ≠ strLower n) : hGetD (hSet l n v) m dflt = hGetD l m dflt := by
  unfold hGetD
  rw [hGet_hSet_ne l n v m h]

theorem hGetD_hSet_same (l : List (String × String)) (n v m dflt : String)
    (h : strLower m = strLower n) :
    hGetD (hSet l n v) m dflt = if v = "" then dflt else v := by
  unfold hGetD
  rw [hGet_hSet_same l n v m h]

/-! ## External codec binaries

The actual compression transforms live outside the repository (the `brotli`
CLI invoked through `Bun.spawn`, and `Bun.gzipSync` / `Bun.inflateSync` from
the runtime). They are modelled as parameters: a `Codec` bundles one
byte-level encoder/decoder per compression format. Theorems that depend on
the codecs being faithful take their round-trip laws as hypotheses; closed
witnesses instantiate them with `idCodec`. -/

/-- Byte-level external compression transforms: the brotli CLI and Bun's
zlib, as black boxes. -/
structure Codec where
  brEnc : Bytes → Bytes
  brDec : Bytes → Bytes
  gzEnc : Bytes → Bytes
  gzDec : Bytes → Bytes
  dfEnc : Bytes → Bytes
  dfDec : Bytes → Bytes

/-- A degenerate faithful codec (every encoder/decoder is the identity),
used to instantiate closed witnesses. -/
def idCodec : Codec := ⟨id, id, id, id, id, id⟩

/-- The value flowing into the compress helpers: JS `string | Uint8Array`. -/
inductive StrOrBytes where
  | str (s : String)
  | bytes (b : Bytes)
deriving DecidableEq

namespace SrcCompress

/-!
Embedding of `src/utils/compress.util.ts` (the module named by the spec's
codec-pool component): the wrappers around the external transforms.
-/

/-- `brotliCompress(rawData)`: a string is written to the temp file as is; a
`Uint8Array` first goes through `rawData.toString()` — JS renders it as
comma-separated decimals — before the file is written and handed to the
brotli CLI. -/
def brotliCompress (cd : Codec) : StrOrBytes → Bytes
  | .str s => cd.brEnc (strBytes s)
  | .bytes b => cd.brEnc (strBytes (uint8ToString b))

/-- `brotliDecompress(raw)`: CLI output chunks are concatenated and decoded
as UTF-8 (`Buffer.concat(chunks).toString()`). -/
def brotliDecompress (cd : Codec) (b : Bytes) : String := bytesStr (cd.brDec b)

/-- `gzipCompress(rawData)`: strings are UTF-8 encoded, byte inputs passed
through, then `Bun.gzipSync` (level 9). -/
def gzipCompress (cd : Codec) : StrOrBytes → Bytes
  | .str s => cd.gzEnc (strBytes s)
  | .bytes b => cd.gzEnc b

/-- `gzipDecompress(rawData)`: `Bun.gunzipSync` then `.toString()` (UTF-8). -/
def gzipDecompress (cd : Codec) : StrOrBytes → String
  | .str s => bytesStr (cd.gzDec (strBytes s))
  | .bytes b => bytesStr (cd.gzDec b)

/-- `deflateCompress(rawData)`: strings are UTF-8 encoded, byte inputs passed
through, then `Bun.deflateSync` (level 9). -/
def deflateCompress (cd : Codec) : StrOrBytes → Bytes
  | .str s => cd.dfEnc (strBytes s)
  | .bytes b => cd.dfEnc b

/-- `deflateDecompress(data)`: `Bun.inflateSync` then `.toString()` (UTF-8). -/
def deflateDecompress (cd : Codec) (b : Bytes) : String := bytesStr (cd.dfDec b)

end SrcCompress

namespace CoreCompress

/-!
Embedding of `src/core/utils/compress.util.ts`, the variant imported by the
server pipeline's `http.util`. Unlike the `src/utils` variant, its
`brotliCompress` writes `rawData` to the temp file directly, so byte inputs
are compressed verbatim.
-/

/-- Core `brotliCompress(rawData)`: `Bun.write(tempFile, rawData)` writes a
string as UTF-8 and a `Uint8Array` verbatim; the CLI compresses the file. -/
def brotliCompress (cd : Codec) : StrOrBytes → Bytes
  | .str s => cd.brEnc (strBytes s)
  | .bytes b => cd.brEnc b

/-- Core `brotliDecompress`: CLI output concatenated and UTF-8 decoded. -/
def brotliDecompress (cd : Codec) (b : Bytes) : String := bytesStr (cd.brDec b)

/-- Core `gzipCompress`: identical to the `src/utils` variant. -/
def gzipCompress (cd : Codec) : StrOrBytes → Bytes
  | .str s => cd.gzEnc (strBytes s)
  | .bytes b => cd.gzEnc b

/-- Core `gzipDecompress`: `Bun.gunzipSync` then `TextDecoder("utf-8")`. -/
def gzipDecompress (cd : Codec) : StrOrBytes → String
  | .str s => bytesStr (cd.gzDec (strBytes s))
  | .bytes b => bytesStr (cd.gzDec b)

/-- Core `deflateCompress`: identical to the `src/utils` variant. -/
def deflateCompress (cd : Codec) : StrOrBytes → Bytes
  | .str s => cd.dfEnc (strBytes s)
  | .bytes b => cd.dfEnc b

/-- Core `deflateDecompress`: `Bun.inflateSync` then `TextDecoder("utf-8")`. -/
def deflateDecompress (cd : Codec) (b : Bytes) : String := bytesStr (cd.dfDec b)

end CoreCompress

/-! ## Cacheable response objects (`src/core/utils/http.util.ts`) -/

/-- `ResponseCacheableObject`: the unit stored in the LRU cache. -/
structure CObj where
  body : Bytes
  status : Int
  headers : List (String × String)
deriving DecidableEq

/-- The cache store, as the server uses it: an association of request keys to
cacheable objects. The LRU recency/size bookkeeping of `lru-cache` does not
affect any claim and is not modelled. -/
abbrev Cache := List (String × CObj)

/-- `cache.get(key)`. -/
def cacheGet (c : Cache) (k : String) : Option CObj := c.lookup k

/-- `cache.set(key, obj)`: replace the entry in place or append it. -/
def cacheSet (c : Cache) (k : String) (v : CObj) : Cache :=
  match c with
  | [] => [(k, v)]
  | p :: r => if p.1 = k then (k, v) :: r else p :: cacheSet r k v

/-- `cache.delete(key)`. -/
def cacheDelete (c : Cache) (k : String) : Cache :=
  match c with
  | [] => []
  | p :: r => if p.1 = k then cacheDelete r k else p :: cacheDelete r k

/-- A handler's result (`JsonValue | Response`): a `Response`-like value, a
plain string, or a structured JSON value represented by its
`JSON.stringify` output. -/
inductive HandlerData where
  | resp (status : Int) (headers : List (String × String)) (body : Bytes)
  | str (s : String)
  | json (s : String)
deriving DecidableEq

/-- The `preferredEncodings` list: brotli first when available, then gzip,
deflate, identity. -/
def preferredEncodings (canBr : Bool) : List String :=
  (if canBr then ["br"] else []) ++ ["gzip", "deflate", "identity"]

/-- `preferredEncodings.find(enc => acceptableEncodings.includes(enc)) ||
ENCODINGS.IDENTITY`. -/
def selectEncoding (canBr : Bool) (acceptable : List String) : String :=
  ((preferredEncodings canBr).find? (fun e => acceptable.contains e)).getD "identity"

/-- `compressData(data, encoding)` of `http.util`: dispatch on the encoding;
the default branch returns string input UTF-8 encoded and byte input as is. -/
def compressData (cd : Codec) (d : StrOrBytes) (encoding : String) : Bytes :=
  if encoding = "br" then CoreCompress.brotliCompress cd d
  else if encoding = "gzip" then CoreCompress.gzipCompress cd d
  else if encoding = "deflate" then CoreCompress.deflateCompress cd d
  else match d with
    | .str s => strBytes s
    | .bytes b => b

/-- `decompressResponse(response)`: brotli-encoded bodies are decompressed
through the CLI, anything else is read with `response.text()`. -/
def decompressResponse (cd : Codec) (hs : List (String × String)) (body : Bytes) : String :=
  if hGet hs "content-encoding" = some "br" then CoreCompress.brotliDecompress cd body
  else bytesStr body

/-- `compressResponse(response, dataEncoding)`: decompress, then recompress. -/
def compressResponse (cd : Codec) (hs : List (String × String)) (body : Bytes)
    (dataEncoding : String) : Bytes :=
  compressData cd (.str (decompressResponse cd hs body)) dataEncoding

/-- `compressString(data, dataEncoding)`. -/
def compressString (cd : Codec) (s : String) (dataEncoding : String) : Bytes :=
  compressData cd (.str s) dataEncoding

/-- `convertToCacheableObject(data, acceptableEncodings)`: pick the stored
encoding, compress the payload, and stamp `content-encoding` and
`content-length`. Throws when the acceptable list is empty. -/
def convertToCacheableObject (cd : Codec) (canBr : Bool) (data : HandlerData)
    (acceptable : List String) : Except String CObj :=
  if acceptable = [] then .error "Please provide array of acceptable encodings"
  else
    let dataEncoding := selectEncoding canBr acceptable
    match data with
    | .resp st hs body =>
      let compressed := compressResponse cd hs body dataEncoding
      .ok ⟨compressed, st,
        hSet (hSet hs "content-encoding" dataEncoding)
          "content-length" (toString compressed.length)⟩
    | .str s =>
      let compressed := compressString cd s dataEncoding
      .ok ⟨compressed, 200,
        hSet (hSet (hSet [] "content-type" "text/plain")
          "content-encoding" dataEncoding)
          "content-length" (toString compressed.length)⟩
    | .json s =>
      let compressed := compressString cd s dataEncoding
      .ok ⟨compressed, 200,
        hSet (hSet (hSet [] "content-type" "application/json")
          "content-encoding" dataEncoding)
          "content-length" (toString compressed.length)⟩

/-- `cacheResponseObject(requestId, responseObj)`: stamp `x-cache-date` with
the current time and store the object. The cache singleton obtained through
`getCacheInstance()` is the store the server was initialised with, passed
explicitly here. -/
def cacheResponseObject (now : String) (requestId : String) (obj : CObj)
    (cache : Cache) : CObj × Cache :=
  let obj' : CObj := { obj with headers := hSet obj.headers "x-cache-date" now }
  (obj', cacheSet cache requestId obj')

/-- `convertCacheableObject(cacheableObj, acceptableEncodings)`: transcode a
cached object to the preferred acceptable encoding, building a new object;
returns the input unchanged when the encodings already agree. -/
def convertCacheableObject (cd : Codec) (canBr : Bool) (obj : CObj)
    (acceptable : List String) : Except String CObj :=
  let currentEncoding := hGet obj.headers "content-encoding"
  if acceptable = [] then .error "Please provide array of acceptable encodings"
  else
    let expectedEncoding := selectEncoding canBr acceptable
    if currentEncoding = some expectedEncoding then .ok obj
    else
      let decompressedData :=
        if currentEncoding = some "br" then CoreCompress.brotliDecompress cd obj.body
        else if currentEncoding = some "gzip" then
          CoreCompress.gzipDecompress cd (.bytes obj.body)
        else if currentEncoding = some "deflate" then
          CoreCompress.deflateDecompress cd obj.body
        else bytesStr obj.body
      let converted :=
        if expectedEncoding = "br" then CoreCompress.brotliCompress cd (.str decompressedData)
        else if expectedEncoding = "gzip" then
          CoreCompress.gzipCompress cd (.str decompressedData)
        else if expectedEncoding = "deflate" then
          CoreCompress.deflateCompress cd (.str decompressedData)
        else if expectedEncoding = "identity" then strBytes decompressedData
        else []
      if converted = [] then .error "No expected encoding found"
      else .ok ⟨converted, obj.status,
        hSet (hSet obj.headers "content-encoding" expectedEncoding)
          "content-length" (toString converted.length)⟩

/-! ## Request keys (`getRequestId` / `getUrlId` of `http.util`)

The WHATWG `URL` parser is an external collaborator; a request URL enters the
model already split into its pathname and decoded query pairs.
`URLSearchParams` percent-encoding is not modelled (exact on unreserved
ASCII, which every concrete input here uses). -/

/-- A parsed request URL: `url.pathname` and `Array.from(url.searchParams)`. -/
structure UrlParts where
  pathname : String
  searchParams : List (String × String)
deriving DecidableEq

/-- Stable insertion of a query pair by key (equal keys keep their original
relative order, as ES2019 `Array.prototype.sort` is stable). -/
def insertParam (p : String × String) : List (String × String) → List (String × String)
  | [] => [p]
  | q :: r => if strLt q.1 p.1 then q :: insertParam p r else p :: q :: r

/-- `Array.from(url.searchParams).sort((a, b) => a[0].localeCompare(b[0]))`,
with `localeCompare` modelled as code-point comparison (exact on the ASCII
names used here). -/
def sortParams : List (String × String) → List (String × String)
  | [] => []
  | p :: r => insertParam p (sortParams r)

/-- `new URLSearchParams(pairs).toString()`: `k=v` pairs joined with `&`. -/
def serializeQuery (ps : List (String × String)) : String :=
  joinSep "&" (ps.map (fun p => p.1 ++ "=" ++ p.2))

/-- `getUrlId(url, prefix)`: sort the query, rebuild
`prefix + pathname + search` (the `search` getter carries a leading `?` when
the query is non-empty), hash it, and return `"u:" + hash`. The xxh64
primitive is an external collaborator, passed in as `h`. -/
def getUrlId (h : String → String) (u : UrlParts) (pfx : String) : String :=
  let q := serializeQuery (sortParams u.searchParams)
  let exceptHost := pfx ++ u.pathname ++ (if q = "" then "" else "?" ++ q)
  "u:" ++ h exceptHost

/-- `getRequestId(request)` of `src/core/utils/http.util.ts`:
`"req:" + getUrlId(request.url, request.headers.get("x-unique-id") || "")`.
The `requestMemoize` wrapper only caches the value per request object and
does not change it. -/
def getRequestId (h : String → String) (u : UrlParts)
    (reqHeaders : List (String × String)) : String :=
  "req:" ++ getUrlId h u (hGetD reqHeaders "x-unique-id" "")

/-- The request key as claim C1 words it: `"req:"` followed directly by the
hash of pathname, then the sorted query string, then the `x-unique-id` value
appended at the end. Stated from the claim for comparison with
`getRequestId`. -/
def claimRequestKey (h : String → String) (u : UrlParts)
    (reqHeaders : List (String × String)) : String :=
  let q := serializeQuery (sortParams u.searchParams)
  "req:" ++ h (u.pathname ++ (if q = "" then "" else "?" ++ q) ++
    hGetD reqHeaders "x-unique-id" "")

example :
    getRequestId (fun s => s) ⟨"/", [("a", "1"), ("c", "3"), ("b", "2")]⟩ [] =
      "req:u:/?a=1&b=2&c=3" := by decide
example :
    claimRequestKey (fun s => s) ⟨"/", [("a", "1"), ("c", "3"), ("b", "2")]⟩ [] =
      "req:/?a=1&b=2&c=3" := by decide

/-! ## Router (`src/core/utils/router.util.ts`) -/

/-- A `CompiledRoute`: the compiled `URLPattern` is an external matching
engine, abstracted as the function `route.path.exec(url)?.pathname?.groups`
(`none` for no match, `some params` for a match — an empty `groups` object is
still truthy in JS). `handler` carries the value the route handler resolves
with (`.error` models a thrown exception), and `cache` the per-route
cacheable flag (`rest.cache ?? true` from `compileRoute`). -/
structure RouteM where
  exec : String → Option (List (String × String))
  cache : Bool
  handler : Except String HandlerData

/-- The `while (!match && i > 0)` loop of `findMatchedRoute`: `i` counts the
routes still unexamined; index `i - 1` is probed next. -/
def findLoop (u : String) (routes : List RouteM) :
    Nat → Option (RouteM × List (String × String))
  | 0 => none
  | i + 1 =>
    match routes.get? i with
    | some route =>
      match route.exec u with
      | some params => some (route, params)
      | none => findLoop u routes i
    | none => findLoop u routes i

/-- `findMatchedRoute(request, compiledRoutes)`: scan the compiled routes
from the last index downwards and stop at the first match. -/
def findMatchedRoute (u : String) (routes : List RouteM) :
    Option (RouteM × List (String × String)) :=
  findLoop u routes routes.length

/-- The routes matching a URL, in declaration order, paired with their
extracted parameters (the specification-side view used to state C8). -/
def matchingRoutes (u : String) (routes : List RouteM) :
    List (RouteM × List (String × String)) :=
  routes.filterMap (fun r => (r.exec u).map (fun p => (r, p)))

theorem matchingRoutes_append (u : String) (a b : List RouteM) :
    matchingRoutes u (a ++ b) = matchingRoutes u a ++ matchingRoutes u b := by
  simp [matchingRoutes, List.filterMap_append]

theorem findLoop_eq_getLast (u : String) (routes : List RouteM) :
    ∀ n, n ≤ routes.length →
      findLoop u routes n = (matchingRoutes u (routes.take n)).getLast? := by
  intro n
  induction n with
  | zero => intro _; simp [findLoop, matchingRoutes]
  | succ i ih =>
    intro hle
    have hi : i < routes.length := Nat.lt_of_succ_le hle
    obtain ⟨r, hr⟩ : ∃ r, routes.get? i = some r := by
      rw [List.get?_eq_get hi]
      exact ⟨_, rfl⟩
    have hr' : routes[i]? = some r := by
      rw [← List.get?_eq_getElem?]
      exact hr
    have htake : routes.take (i + 1) = routes.take i ++ [r] := by
      rw [List.take_succ, hr']
      rfl
    unfold findLoop
    rw [htake, matchingRoutes_append]
    simp only [hr]
    cases hexec : r.exec u with
    | some params =>
      simp only [hexec]
      have h1 : matchingRoutes u [r] = [(r, params)] := by
        simp [matchingRoutes, hexec]
      rw [h1, List.getLast?_concat]
    | none =>
      simp only [hexec]
      have h1 : matchingRoutes u [r] = [] := by
        simp [matchingRoutes, hexec]
      rw [h1, List.append_nil]
      exact ih (Nat.le_of_lt hi)

/-! ## Persistence sidecar (`src/utils/storage.util.ts`)

`serializeToFile` writes each dump entry as
`u32le keyLen | key | u32le headersLen | headers | i32le status | body`,
with no length field for the body; `deserializeFromFile` reads entries back
in a loop, taking `data.length - offset` as the body length. File I/O is
abstracted away: the theorems compose the byte images directly. -/

/-- An element of `cache.dump()`: `[key, {value: {body, status, headers},
size}]`. -/
structure SEntry where
  key : String
  status : Int
  headers : List (String × String)
  body : Bytes
  size : Nat
deriving DecidableEq

/-- An element of the deserializer's output. The header rows keep the full
`header.split(":")` result (the TS code casts the `string[]` to a pair
without truncating it), and `size` is recomputed from the encoded lengths. -/
structure DEntry where
  key : String
  status : Int
  headers : List (List String)
  body : Bytes
  size : Nat
deriving DecidableEq

/-- `Buffer.writeUInt32LE`: the little-endian base-256 digits. -/
def u32le (n : Nat) : Bytes :=
  [n % 256, n / 256 % 256, n / 65536 % 256, n / 16777216 % 256]

/-- `Buffer.writeInt32LE`: the low 32 bits of the two's-complement value. -/
def i32le (n : Int) : Bytes := u32le (n % 4294967296).toNat

/-- `Buffer.readUInt32LE` at the head of the remaining bytes (the source
would throw on fewer than four bytes; no theorem reaches that case). -/
def readU32 : Bytes → Nat
  | b0 :: b1 :: b2 :: b3 :: _ => b0 + b1 * 256 + b2 * 65536 + b3 * 16777216
  | _ => 0

/-- `Buffer.readInt32LE` at the head of the remaining bytes. -/
def readI32 (l : Bytes) : Int :=
  let u := readU32 l
  if u < 2147483648 then (u : Int) else (u : Int) - 4294967296

/-- The headers string: `Array.from(headers).map(h => h.join(":")).join("\n")`. -/
def headersLines (hs : List (String × String)) : String :=
  joinSep "\n" (hs.map (fun p => p.1 ++ ":" ++ p.2))

/-- The byte image of a single dump entry. -/
def serializeItem (e : SEntry) : Bytes :=
  let keyB := strBytes e.key
  let hdrB := strBytes (headersLines e.headers)
  u32le keyB.length ++ keyB ++ u32le hdrB.length ++ hdrB ++ i32le e.status ++ e.body

/-- `serializeToFile(data, filename)`: the concatenated entry images
(`Buffer.concat(serializedItems)`), as written to the file. -/
def serializeToFile (data : List SEntry) : Bytes :=
  (data.map serializeItem).flatten

/-- One pass of the `while (offset < data.length)` loop plus the recursive
rest; the body length is `data.length - offset`, i.e. everything remaining.
`fuel` bounds the iteration count (each pass consumes the whole remainder,
so a single unit of fuel is ever used on non-empty input). -/
def deserializeLoop : Nat → Bytes → List DEntry
  | 0, _ => []
  | fuel + 1, l =>
    if l = [] then [] else
    let keyLen := readU32 l
    let rest1 := l.drop 4
    let key := bytesStr (rest1.take keyLen)
    let rest2 := rest1.drop keyLen
    let hdrLen := readU32 rest2
    let rest3 := rest2.drop 4
    let hdrStr := bytesStr (rest3.take hdrLen)
    let hdrs := (strSplitChar hdrStr '\n').map (fun line => strSplitChar line ':')
    let rest4 := rest3.drop hdrLen
    let status := readI32 rest4
    let rest5 := rest4.drop 4
    let bodyLen := rest5.length
    let body := rest5.take bodyLen
    ⟨key, status, hdrs, body, bodyLen + hdrLen + 8 + keyLen + 4⟩ ::
      deserializeLoop fuel (rest5.drop bodyLen)

/-- `deserializeFromFile(filename)` on the byte image of the file. -/
def deserializeFromFile (l : Bytes) : List DEntry :=
  deserializeLoop (l.length + 1) l

/-- The equality claim C9 asserts between a dump and its reloaded image: the
same keys in the same order, and for each key an equal status, the same
header (name, value) rows, and a byte-for-byte equal body. -/
def dumpMatches (orig : List SEntry) (got : List DEntry) : Prop :=
  got.map (fun d => (d.key, d.status, d.headers, d.body)) =
    orig.map (fun e => (e.key, e.status, e.headers.map (fun p => [p.1, p.2]), e.body))

instance (orig : List SEntry) (got : List DEntry) : Decidable (dumpMatches orig got) := by
  unfold dumpMatches
  infer_instance

/-! ## Server request pipeline (`src/core/server.ts`) -/

/-- An inbound HTTP request as the fetch handler reads it: the raw URL
string (for the substring short-circuits and the route matcher), the method,
and the request headers. -/
structure ReqM where
  url : String
  method : String
  headers : List (String × String)

/-- The server's ambient configuration: the compiled route table, whether an
LRU cache was passed in `options.cache`, the request-key function
(`options.getRequestId` defaulting to `http.util`'s), brotli availability,
the external codecs, the CORS flag, and the wall-clock timestamp the next
`cacheResponseObject` call stamps. -/
structure ServerCtx where
  corsEnabled : Bool
  routes : List RouteM
  hasCache : Bool
  getReqId : ReqM → String
  canBr : Bool
  cd : Codec
  now : String

/-- An outbound HTTP response: status, header entry list, body bytes. -/
structure Resp where
  status : Int
  headers : List (String × String)
  body : Bytes
deriving DecidableEq

/-- `jsonResponse(data, status, headers)` of `response.util`: stamp
`content-type: application/json` when the header is absent or empty and wrap
the (already stringified) body. -/
def jsonResponse (bodyStr : String) (status : Int)
    (headers : List (String × String)) : Resp :=
  let hs :=
    if hGetD headers "content-type" "" = "" then
      hSet headers "content-type" "application/json"
    else hCanon headers
  ⟨status, hs, strBytes bodyStr⟩

/-- `notFoundResponse()`: the 404 JSON body. -/
def notFoundResponse : Resp :=
  jsonResponse "\x7b\"error\":\"Page not found!\",\"code\":404\x7d" 404 []

/-- The health-check JSON response of the `/healthcheck` short-circuit. -/
def healthResponse : Resp :=
  jsonResponse "\x7b\"success\":true,\"message\":\"Health Check is good.\"\x7d" 200 []

/-- `errorResponse(ex)` for a generic thrown `Error`: a 500 JSON body
carrying the message (the `RouteError` status/responseText refinements and
the stack trace text are not inspected by any claim). -/
def errorResponse (msg : String) : Resp :=
  jsonResponse ("\x7b\"error\":\"" ++ msg ++ "\",\"stack\":null,\"code\":500\x7d") 500 []

/-- Modelled from the spec: `setCORSHeaders` of `cors.util`, which is not
present under `src/`. The spec calls it "CORS header stamping (a pure header
transform)" appended by an external collaborator; since no claim inspects a
CORS header, it is modelled as the identity transform on header lists, with
`corsConfig.enabled` a server parameter. -/
def setCORSHeaders (hs : List (String × String)) : List (String × String) := hs

/-- A background revalidation task the HIT branch has fired
(the async IIFE of `server.ts`), before any of its steps have run. -/
structure BgSpawn where
  key : String
  handler : Except String HandlerData

/-- The outcome of one `fetch` invocation: the response, the cache as left
behind by the synchronous part, and the fired background tasks. -/
structure FetchResult where
  resp : Resp
  cache : Cache
  spawned : List BgSpawn

/-- `(request.headers.get("accept-encoding") || "identity")
.split(",").map(t => t.trim())`. -/
def acceptableEncodingsOf (req : ReqM) : List String :=
  (strSplitChar (hGetD req.headers "accept-encoding" "identity") ',').map strTrim

/-- `cache && r.route?.cache && ["GET", "HEAD", "OPTIONS"]
.includes(request.method.toUpperCase())`. -/
def workWithCache (ctx : ServerCtx) (route : RouteM) (req : ReqM) : Bool :=
  ctx.hasCache && route.cache &&
    (["GET", "HEAD", "OPTIONS"].contains (strUpper req.method))

/-- The data-acquisition step of the fetch handler's try block: on a HIT
with non-empty body, fire the revalidation task, stamp `X-Cache: HIT`
(the `data.headers = ...` assignment mutates the very object the cache
holds, so the write is visible through the store) and keep the entry;
otherwise run the handler synchronously and, when caching applies, store the
converted object under the request key. -/
def serveData (ctx : ServerCtx) (cache : Cache) (req : ReqM) (route : RouteM) :
    Except String (CObj × Cache × List BgSpawn) :=
  let requestId := ctx.getReqId req
  let wwc := workWithCache ctx route req
  let hitData : Option CObj :=
    if wwc then
      match cacheGet cache requestId with
      | some entry => if entry.body ≠ [] then some entry else none
      | none => none
    else none
  match hitData with
  | some entry =>
    let stamped : CObj := { entry with headers := hSet entry.headers "X-Cache" "HIT" }
    .ok (stamped, cacheSet cache requestId stamped, [⟨requestId, route.handler⟩])
  | none =>
    match route.handler with
    | .error e => .error e
    | .ok routeData =>
      if wwc then
        match convertToCacheableObject ctx.cd ctx.canBr routeData ["br"] with
        | .error e => .error e
        | .ok conv =>
          let oc := cacheResponseObject ctx.now requestId conv cache
          .ok (oc.1, oc.2, [])
      else
        match convertToCacheableObject ctx.cd ctx.canBr routeData
            (acceptableEncodingsOf req) with
        | .error e => .error e
        | .ok conv => .ok (conv, cache, [])

/-- The response-construction step of the try block: transcode when the
entry's `content-encoding` is not acceptable, 404 on an empty body, default
the `X-Cache` header to `MISS`, stamp CORS, and emit status/headers/body. -/
def respPhase (ctx : ServerCtx) (accEnc : List String) (data : CObj) :
    Except String Resp :=
  let responseEncoding := hGetD data.headers "content-encoding" "identity"
  match (if accEnc.contains responseEncoding then Except.ok data
         else convertCacheableObject ctx.cd ctx.canBr data accEnc) with
  | .error e => .error e
  | .ok data =>
    if data.body = [] then .ok notFoundResponse
    else
      let fh :=
        if hGetD data.headers "x-cache" "" = "" then hSet data.headers "X-Cache" "MISS"
        else hCanon data.headers
      .ok ⟨data.status, setCORSHeaders fh, data.body⟩

/-- The catch block: build the 500 error response, stamp CORS and
`X-Cache: ERROR`. -/
def errorCatch (msg : String) : Resp :=
  let er := errorResponse msg
  { er with headers := hSet (setCORSHeaders er.headers) "X-Cache" "ERROR" }

/-- The fetch handler once a route has matched: the try/catch around data
acquisition and response construction. A failure after the HIT stamping
keeps the mutated cache and the fired task, exactly as the source does. -/
def serveRouted (ctx : ServerCtx) (cache : Cache) (req : ReqM) (route : RouteM) :
    FetchResult :=
  match serveData ctx cache req route with
  | .ok dcs =>
    match respPhase ctx (acceptableEncodingsOf req) dcs.1 with
    | .ok resp => ⟨resp, dcs.2.1, dcs.2.2⟩
    | .error msg => ⟨errorCatch msg, dcs.2.1, dcs.2.2⟩
  | .error msg => ⟨errorCatch msg, cache, []⟩

/-- The fetch handler of `Bun.serve` in `run`: favicon and health-check
substring short-circuits, the CORS preflight, route lookup, then the
routed try/catch. -/
def serveFetch (ctx : ServerCtx) (cache : Cache) (req : ReqM) : FetchResult :=
  if strIncludes req.url "/favicon.ico" then ⟨notFoundResponse, cache, []⟩
  else if strIncludes req.url "/healthcheck" then ⟨healthResponse, cache, []⟩
  else if ctx.corsEnabled && (req.method == "OPTIONS") then
    ⟨⟨204, setCORSHeaders (hCanon []), []⟩, cache, []⟩
  else
    match findMatchedRoute req.url ctx.routes with
    | none => ⟨notFoundResponse, cache, []⟩
    | some rp => serveRouted ctx cache req rp.1

/-! ## The background revalidation task

`server.ts` lines 96–120: an async IIFE per HIT. `runBgTask` is its
sequential semantics with a failure injectable at each of the three awaited
steps (handler call, conversion, store); a step that throws performs no
cache write, since the only write of the try block is the final `cache.set`
inside `cacheResponseObject`. The `catch` deletes the key from the cache and
the `finally` removes it from `bgRequests` — note that the early
`return` of the guard also runs the `finally`. -/

/-- JS `Set.prototype.delete` on the in-flight set. -/
def setDelete (K : String) : List String → List String
  | [] => []
  | x :: r => if x = K then setDelete K r else x :: setDelete K r

/-- The whole life of one revalidation task, run without interleaving. -/
def runBgTask (cd : Codec) (canBr : Bool) (now : String) (cache : Cache)
    (S : List String) (K : String) (handlerRes : Except String HandlerData)
    (convertFails storeFails : Bool) : Cache × List String :=
  if S.contains K then
    (cache, setDelete K S)
  else
    let S1 := K :: S
    match handlerRes with
    | .error _ => (cacheDelete cache K, setDelete K S1)
    | .ok d =>
      match (if convertFails then Except.error "convert"
             else convertToCacheableObject cd canBr d ["br"]) with
      | .error _ => (cacheDelete cache K, setDelete K S1)
      | .ok conv =>
        if storeFails then (cacheDelete cache K, setDelete K S1)
        else ((cacheResponseObject now K conv cache).2, setDelete K S1)

/-- Whether the task fails at one of its three steps. -/
def bgTaskFails (handlerRes : Except String HandlerData)
    (convertFails storeFails : Bool) : Prop :=
  (∃ e, handlerRes = .error e) ∨ convertFails = true ∨ storeFails = true

/-! ### Interleaved revalidation tasks (single-flight analysis)

The JS event loop runs each segment between two `await`s atomically. The
IIFE has one await before any further suspension point: `await
r.route.handler(...)`. Its atomic segments are therefore: (1) from entry
through the guard — either the early `return` (whose `finally` deletes the
key from `bgRequests`) or the test-and-insert followed by suspension at the
handler call — and (2) everything after the handler settles, ending in the
`finally` that deletes the key. Cache effects are given by `runBgTask` and
do not matter for counting concurrent tasks. -/

/-- The phase of one revalidation task. -/
inductive BgPhase where
  | ready
  | inHandler
  | done
deriving DecidableEq

/-- One revalidation task: its request key and phase. -/
structure BgTaskSt where
  key : String
  phase : BgPhase
deriving DecidableEq

/-- The shared state: the spawned tasks and the `bgRequests` set. -/
structure BgSys where
  tasks : List BgTaskSt
  inflight : List String
deriving DecidableEq

/-- Run the next atomic segment of task `i`. -/
def stepTask (sys : BgSys) (i : Nat) : BgSys :=
  match sys.tasks.get? i with
  | none => sys
  | some t =>
    match t.phase with
    | .ready =>
      if sys.inflight.contains t.key then
        { tasks := sys.tasks.set i ⟨t.key, .done⟩,
          inflight := setDelete t.key sys.inflight }
      else
        { tasks := sys.tasks.set i ⟨t.key, .inHandler⟩,
          inflight := t.key :: sys.inflight }
    | .inHandler =>
      { tasks := sys.tasks.set i ⟨t.key, .done⟩,
        inflight := setDelete t.key sys.inflight }
    | .done => sys

/-- Run a schedule: the event loop picks which task's next segment runs. -/
def runSched (sys : BgSys) (sched : List Nat) : BgSys := sched.foldl stepTask sys

/-- How many revalidation tasks for key `K` are between their test-and-insert
and their completion — i.e. concurrently revalidating `K`. -/
def runningFor (sys : BgSys) (K : String) : Nat :=
  (sys.tasks.filter (fun t => decide (t.key = K ∧ t.phase = BgPhase.inHandler))).length

/-! ## Supporting lemmas on the cache and set models -/

theorem cacheGet_cons (p : String × CObj) (r : Cache) (k : String) :
    cacheGet (p :: r) k = if k = p.1 then some p.2 else cacheGet r k := by
  rcases p with ⟨a, b⟩
  unfold cacheGet
  cases hb : k == a with
  | true => rw [List.lookup, hb, if_pos (eq_of_beq hb)]
  | false => rw [List.lookup, hb, if_neg (ne_of_beq_false hb)]

theorem cacheGet_cacheSet_self (c : Cache) (k : String) (v : CObj) :
    cacheGet (cacheSet c k v) k = some v := by
  induction c with
  | nil => simp [cacheSet, cacheGet_cons]
  | cons p r ih =>
    unfold cacheSet
    by_cases h : p.1 = k
    · rw [if_pos h, cacheGet_cons]
      simp
    · rw [if_neg h, cacheGet_cons, if_neg (fun hc : k = p.1 => h hc.symm)]
      exact ih

theorem cacheGet_cacheSet_ne (c : Cache) (k k' : String) (v : CObj)
    (h : k' ≠ k) : cacheGet (cacheSet c k v) k' = cacheGet c k' := by
  induction c with
  | nil => simp [cacheSet, cacheGet_cons, h, cacheGet]
  | cons p r ih =>
    unfold cacheSet
    by_cases hp : p.1 = k
    · rw [if_pos hp, cacheGet_cons, cacheGet_cons,
        if_neg (fun hc : k' = k => h hc), if_neg (fun hc : k' = p.1 => h (hc.trans hp))]
    · rw [if_neg hp, cacheGet_cons, cacheGet_cons]
      by_cases hk' : k' = p.1
      · rw [if_pos hk', if_pos hk']
      · rw [if_neg hk', if_neg hk']
        exact ih

theorem cacheGet_cacheDelete_self (c : Cache) (k : String) :
    cacheGet (cacheDelete c k) k = none := by
  induction c with
  | nil => rfl
  | cons p r ih =>
    unfold cacheDelete
    by_cases h : p.1 = k
    · rw [if_pos h]
      exact ih
    · rw [if_neg h, cacheGet_cons, if_neg (fun hc : k = p.1 => h hc.symm)]
      exact ih

theorem not_mem_setDelete (S : List String) (K : String) : K ∉ setDelete K S := by
  induction S with
  | nil => simp [setDelete]
  | cons x r ih =>
    unfold setDelete
    by_cases h : x = K
    · rw [if_pos h]
      exact ih
    · rw [if_neg h]
      intro hmem
      rcases List.mem_cons.1 hmem with h1 | h2
      · exact h h1.symm
      · exact ih h2

/-! ## Claim theorems -/

/-- C8: `findMatchedRoute` iterates the compiled route list in reverse
insertion order and returns the first match found, so its result is exactly
the last route (in declaration order) whose pattern matches the URL,
together with that route's extracted parameters — and no match at all when
no route matches (`getLast?` of the empty match list is `none`). -/
theorem findMatchedRoute_last_declared_wins (u : String) (routes : List RouteM) :
    findMatchedRoute u routes = (matchingRoutes u routes).getLast? := by
  unfold findMatchedRoute
  rw [findLoop_eq_getLast u routes routes.length (Nat.le_refl _), List.take_length]

/-- C3 fails on the code: with three overlapping requests for the same key
`"K"`, the second task's early-return guard still runs its `finally`, which
deletes `"K"` from `bgRequests` while the first task is still inside its
handler; a third task then passes the guard, and two revalidations for
`"K"` run concurrently. The schedule `[0, 1, 2]` runs one atomic segment of
each task in order; after tasks 0 and 1 the in-flight set is already empty
again, and after task 2 two tasks are between test-and-insert and
completion. -/
theorem singleFlight_violated_by_finally :
    (runSched ⟨[⟨"K", .ready⟩, ⟨"K", .ready⟩, ⟨"K", .ready⟩], []⟩ [0, 1]).inflight
        = [] ∧
    runningFor (runSched ⟨[⟨"K", .ready⟩, ⟨"K", .ready⟩, ⟨"K", .ready⟩], []⟩ [0, 1, 2])
        "K" = 2 := by
  decide

/-- C4: when a background revalidation for `K` actually starts (the guard
finds `K` absent) and fails at any of its three steps — the handler call,
the conversion, or the store — the task's catch block removes `K` from the
cache and its finally block removes `K` from the in-flight set, so
afterwards the cache holds no entry for `K` and `K` is not in the set. The
error is consumed by the catch and the function returns no error value, so
nothing reaches a client response. -/
theorem bgTask_failure_cleanup (cd : Codec) (canBr : Bool) (now : String)
    (cache : Cache) (S : List String) (K : String)
    (handlerRes : Except String HandlerData) (convertFails storeFails : Bool)
    (hrun : S.contains K = false)
    (hfail : bgTaskFails handlerRes convertFails storeFails) :
    cacheGet (runBgTask cd canBr now cache S K handlerRes convertFails storeFails).1 K
        = none ∧
    K ∉ (runBgTask cd canBr now cache S K handlerRes convertFails storeFails).2 := by
  unfold runBgTask
  rw [hrun]
  simp only [Bool.false_eq_true, if_false]
  cases handlerRes with
  | error e =>
    exact ⟨cacheGet_cacheDelete_self cache K, not_mem_setDelete _ K⟩
  | ok d =>
    rcases hfail with ⟨e, he⟩ | hc | hs
    · exact absurd he (by simp)
    · rw [hc]
      exact ⟨cacheGet_cacheDelete_self cache K, not_mem_setDelete _ K⟩
    · by_cases hc : convertFails = true
      · rw [hc]
        exact ⟨cacheGet_cacheDelete_self cache K, not_mem_setDelete _ K⟩
      · rw [Bool.not_eq_true] at hc
        rw [hc]
        simp only [Bool.false_eq_true, if_false]
        cases convertToCacheableObject cd canBr d ["br"] with
        | error e =>
          exact ⟨cacheGet_cacheDelete_self cache K, not_mem_setDelete _ K⟩
        | ok conv =>
          rw [hs]
          simp only [if_true]
          exact ⟨cacheGet_cacheDelete_self cache K, not_mem_setDelete _ K⟩

/-- Witness for C4 at a concrete failing revalidation: the handler throws,
the pre-existing entry under `"k"` is deleted and the set ends without
`"k"`. -/
theorem bgTask_failure_cleanup_witness :
    cacheGet (runBgTask idCodec true "" [("k", ⟨[65], 200, []⟩)] [] "k"
        (.error "boom") false false).1 "k" = none ∧
    "k" ∉ (runBgTask idCodec true "" [("k", ⟨[65], 200, []⟩)] [] "k"
        (.error "boom") false false).2 :=
  bgTask_failure_cleanup idCodec true "" [("k", ⟨[65], 200, []⟩)] [] "k"
    (.error "boom") false false (by decide) (Or.inl ⟨"boom", rfl⟩)

/-- A route whose pattern matches every URL, used by concrete scenarios. -/
def wRoute : RouteM := ⟨fun _ => some [], true, .ok (.str "hello")⟩

/-- A concrete server configuration: one catch-all cacheable route, a cache
present, constant request key `"K"`, brotli available, identity codecs. -/
def wCtx : ServerCtx := ⟨false, [wRoute], true, fun _ => "K", true, idCodec, "T0"⟩

/-- A concrete GET request with no special headers. -/
def wReq : ReqM := ⟨"http://h/p", "GET", []⟩

/-- C10 amended: a URL containing `/favicon.ico` anywhere is answered with
the 404 JSON before route matching, leaving the cache untouched and firing
nothing; a URL containing `/healthcheck` anywhere — provided it does not
also contain `/favicon.ico`, whose check comes first — is answered with the
200 health JSON, likewise without touching the cache. -/
theorem shortCircuits_substring (ctx : ServerCtx) (cache : Cache) (req : ReqM) :
    (strIncludes req.url "/favicon.ico" = true →
      serveFetch ctx cache req = ⟨notFoundResponse, cache, []⟩) ∧
    (strIncludes req.url "/favicon.ico" = false →
      strIncludes req.url "/healthcheck" = true →
      serveFetch ctx cache req = ⟨healthResponse, cache, []⟩) := by
  constructor
  · intro h
    simp [serveFetch, h]
  · intro h1 h2
    simp [serveFetch, h1, h2]

/-- Witness for C10 at concrete URLs: a favicon path under a matched route
prefix yields the 404 response, a health-check path the 200 JSON. -/
theorem shortCircuits_substring_witness :
    serveFetch wCtx [] ⟨"http://h/p/favicon.ico", "GET", []⟩ =
        ⟨notFoundResponse, [], []⟩ ∧
    serveFetch wCtx [] ⟨"http://h/p/healthcheck", "GET", []⟩ =
        ⟨healthResponse, [], []⟩ :=
  ⟨(shortCircuits_substring wCtx [] ⟨"http://h/p/favicon.ico", "GET", []⟩).1
      (by decide),
    (shortCircuits_substring wCtx [] ⟨"http://h/p/healthcheck", "GET", []⟩).2
      (by decide) (by decide)⟩

/-- C10 counterexample: a URL containing both substrings hits the favicon
check first, so a `/healthcheck` URL is NOT always answered with the 200
health JSON — here it gets the 404 body. -/
theorem shortCircuits_substring_counterexample :
    strIncludes "http://h/healthcheck/favicon.ico" "/healthcheck" = true ∧
    (serveFetch wCtx [] ⟨"http://h/healthcheck/favicon.ico", "GET", []⟩).resp =
        notFoundResponse ∧
    notFoundResponse ≠ healthResponse := by
  refine ⟨by decide, by decide, by decide⟩

/-- The unsalted C1 scenario: `GET http://example.com/?a=1&c=3&b=2` with no
`x-unique-id` header, already parsed. -/
def c1Url : UrlParts := ⟨"/", [("a", "1"), ("c", "3"), ("b", "2")]⟩

/-- The salted C1 scenario: `GET http://example.com/p?a=1` with
`x-unique-id: SALT`. -/
def c1UrlSalted : UrlParts := ⟨"/p", [("a", "1")]⟩

/-- C1 fails on the code: `getRequestId` returns `"req:" + getUrlId(...)`,
and `getUrlId` itself returns `"u:" + hash`, so every key begins `"req:u:"`
rather than `"req:"` followed directly by the hex hash — at the unsalted
input both the code and the claim hash the same string `"/?a=1&b=2&c=3"`,
yet the keys differ for every hash function. Moreover the `x-unique-id`
value enters `getUrlId` as a prefix of the hashed string, not appended
after the query as the claim (and the `x-unique-id`-last variant the
project's test expects) states. -/
theorem getRequestId_key_shape (h : String → String) :
    getRequestId h c1Url [] = "req:u:" ++ h "/?a=1&b=2&c=3" ∧
    claimRequestKey h c1Url [] = "req:" ++ h "/?a=1&b=2&c=3" ∧
    getRequestId h c1Url [] ≠ claimRequestKey h c1Url [] ∧
    getRequestId h c1UrlSalted [("x-unique-id", "SALT")] =
        "req:u:" ++ h "SALT/p?a=1" ∧
    claimRequestKey h c1UrlSalted [("x-unique-id", "SALT")] =
        "req:" ++ h "/p?a=1SALT" ∧
    "SALT/p?a=1" ≠ "/p?a=1SALT" := by
  refine ⟨rfl, rfl, ?_, rfl, rfl, by decide⟩
  intro heq
  have heq' : "req:u:" ++ h "/?a=1&b=2&c=3" = "req:" ++ h "/?a=1&b=2&c=3" := heq
  have hlen := congrArg String.length heq'
  simp [String.length_append] at hlen
  exact absurd hlen (by decide)

/-- Witness for C1's theorem at a concrete hash function. -/
theorem getRequestId_key_shape_witness :
    getRequestId (fun _ => "f00") c1Url [] = "req:u:f00" ∧
    getRequestId (fun _ => "f00") c1Url [] ≠
      claimRequestKey (fun _ => "f00") c1Url [] :=
  ⟨(getRequestId_key_shape (fun _ => "f00")).1,
    (getRequestId_key_shape (fun _ => "f00")).2.2.1⟩

/-- C7 amended: for any faithful external codecs (decompressing undoes
compressing at the byte level) and for every STRING input, decompressing
the result of `brotliCompress` / `gzipCompress` / `deflateCompress` with the
matching decompressor returns the original string; the identity encoding is
the byte round trip of the UTF-8 coding. Byte (`Uint8Array`) inputs are
excluded: see the counterexample. -/
theorem compress_roundtrip_strings (cd : Codec)
    (hbr : ∀ b, cd.brDec (cd.brEnc b) = b)
    (hgz : ∀ b, cd.gzDec (cd.gzEnc b) = b)
    (hdf : ∀ b, cd.dfDec (cd.dfEnc b) = b)
    (s : String) :
    SrcCompress.brotliDecompress cd (SrcCompress.brotliCompress cd (.str s)) = s ∧
    SrcCompress.gzipDecompress cd (.bytes (SrcCompress.gzipCompress cd (.str s))) = s ∧
    SrcCompress.deflateDecompress cd (SrcCompress.deflateCompress cd (.str s)) = s ∧
    bytesStr (strBytes s) = s := by
  refine ⟨?_, ?_, ?_, bytesStr_strBytes s⟩
  · simp [SrcCompress.brotliCompress, SrcCompress.brotliDecompress, hbr,
      bytesStr_strBytes]
  · simp [SrcCompress.gzipCompress, SrcCompress.gzipDecompress, hgz,
      bytesStr_strBytes]
  · simp [SrcCompress.deflateCompress, SrcCompress.deflateDecompress, hdf,
      bytesStr_strBytes]

/-- Witness for C7's amended theorem: the identity codec is faithful, and
the round trip holds at `"Test string"`. -/
theorem compress_roundtrip_strings_witness :
    SrcCompress.brotliDecompress idCodec
        (SrcCompress.brotliCompress idCodec (.str "Test string")) = "Test string" ∧
    SrcCompress.gzipDecompress idCodec
        (.bytes (SrcCompress.gzipCompress idCodec (.str "Test string"))) = "Test string" ∧
    SrcCompress.deflateDecompress idCodec
        (SrcCompress.deflateCompress idCodec (.str "Test string")) = "Test string" ∧
    bytesStr (strBytes "Test string") = "Test string" :=
  compress_roundtrip_strings idCodec (fun _ => rfl) (fun _ => rfl) (fun _ => rfl)
    "Test string"

/-- C7 counterexample: on a byte input, `brotliCompress` first converts the
`Uint8Array` with `rawData.toString()` — the comma-separated decimal
rendering — so the round trip returns that rendering instead of the bytes:
for input `[0]` it yields the string `"0"`, whose bytes are `[48] ≠ [0]`.
(The corruption happens before the external compressor is invoked, so this
holds for every faithful codec; the identity codec exhibits it.) -/
theorem compress_roundtrip_bytes_counterexample :
    SrcCompress.brotliDecompress idCodec
        (SrcCompress.brotliCompress idCodec (.bytes [0])) = "0" ∧
    strBytes "0" ≠ ([0] : Bytes) := by
  refine ⟨by decide, by decide⟩

/-! ### Staging lemmas for the pipeline theorems -/

theorem serveFetch_routed (ctx : ServerCtx) (cache : Cache) (req : ReqM)
    (route : RouteM) (params : List (String × String))
    (hfav : strIncludes req.url "/favicon.ico" = false)
    (hhc : strIncludes req.url "/healthcheck" = false)
    (hopt : (ctx.corsEnabled && (req.method == "OPTIONS")) = false)
    (hroute : findMatchedRoute req.url ctx.routes = some (route, params)) :
    serveFetch ctx cache req = serveRouted ctx cache req route := by
  unfold serveFetch
  simp only [hfav, hhc, hopt, Bool.false_eq_true, if_false, hroute]

theorem serveRouted_cache_of_ok (ctx : ServerCtx) (cache : Cache) (req : ReqM)
    (route : RouteM) (dcs : CObj × Cache × List BgSpawn)
    (h : serveData ctx cache req route = .ok dcs) :
    (serveRouted ctx cache req route).cache = dcs.2.1 := by
  unfold serveRouted
  rw [h]
  show (match respPhase ctx (acceptableEncodingsOf req) dcs.1 with
    | Except.ok resp =>
      ({ resp := resp, cache := dcs.2.1, spawned := dcs.2.2 } : FetchResult)
    | Except.error msg =>
      { resp := errorCatch msg, cache := dcs.2.1, spawned := dcs.2.2 }).cache = dcs.2.1
  cases hr : respPhase ctx (acceptableEncodingsOf req) dcs.1 with
  | ok resp => rfl
  | error msg => rfl

theorem serveRouted_resp_of_ok (ctx : ServerCtx) (cache : Cache) (req : ReqM)
    (route : RouteM) (dcs : CObj × Cache × List BgSpawn) (resp : Resp)
    (h : serveData ctx cache req route = .ok dcs)
    (hr : respPhase ctx (acceptableEncodingsOf req) dcs.1 = .ok resp) :
    (serveRouted ctx cache req route).resp = resp := by
  unfold serveRouted
  rw [h]
  show (match respPhase ctx (acceptableEncodingsOf req) dcs.1 with
    | Except.ok resp =>
      ({ resp := resp, cache := dcs.2.1, spawned := dcs.2.2 } : FetchResult)
    | Except.error msg =>
      { resp := errorCatch msg, cache := dcs.2.1, spawned := dcs.2.2 }).resp = resp
  rw [hr]

theorem serveData_hit (ctx : ServerCtx) (cache : Cache) (req : ReqM)
    (route : RouteM) (entry : CObj)
    (hwwc : workWithCache ctx route req = true)
    (hhit : cacheGet cache (ctx.getReqId req) = some entry)
    (hbody : entry.body ≠ []) :
    serveData ctx cache req route = .ok
      (⟨entry.body, entry.status, hSet entry.headers "X-Cache" "HIT"⟩,
       cacheSet cache (ctx.getReqId req)
         ⟨entry.body, entry.status, hSet entry.headers "X-Cache" "HIT"⟩,
       [⟨ctx.getReqId req, route.handler⟩]) := by
  unfold serveData
  simp only [hwwc, if_true, hhit]
  rw [if_pos hbody]

theorem convertToCacheableObject_ok (cd : Codec) (canBr : Bool) (d : HandlerData)
    (acc : List String) (h : acc ≠ []) :
    ∃ obj : CObj, convertToCacheableObject cd canBr d acc = .ok obj ∧
      hGet obj.headers "content-encoding" = some (selectEncoding canBr acc) := by
  unfold convertToCacheableObject
  rw [if_neg h]
  cases d with
  | resp st hs body =>
    refine ⟨_, rfl, ?_⟩
    rw [hGet_hSet_ne _ _ _ _ (by decide), hGet_hSet_same _ _ _ _ rfl]
  | str s =>
    refine ⟨_, rfl, ?_⟩
    rw [hGet_hSet_ne _ _ _ _ (by decide), hGet_hSet_same _ _ _ _ rfl]
  | json s =>
    refine ⟨_, rfl, ?_⟩
    rw [hGet_hSet_ne _ _ _ _ (by decide), hGet_hSet_same _ _ _ _ rfl]

theorem serveData_miss (ctx : ServerCtx) (cache : Cache) (req : ReqM)
    (route : RouteM) (d : HandlerData)
    (hwwc : workWithCache ctx route req = true)
    (hmiss : cacheGet cache (ctx.getReqId req) = none)
    (hhd : route.handler = .ok d) :
    ∃ obj : CObj,
      serveData ctx cache req route = .ok
        ({ obj with headers := hSet obj.headers "x-cache-date" ctx.now },
         cacheSet cache (ctx.getReqId req)
           { obj with headers := hSet obj.headers "x-cache-date" ctx.now },
         []) ∧
      hGet obj.headers "content-encoding" =
        some (selectEncoding ctx.canBr ["br"]) := by
  obtain ⟨obj, heq, henc⟩ :=
    convertToCacheableObject_ok ctx.cd ctx.canBr d ["br"] (by decide)
  refine ⟨obj, ?_, henc⟩
  unfold serveData
  simp only [hwwc, if_true, hmiss, hhd, heq]
  rfl

theorem selectEncoding_br_only (b : Bool) :
    selectEncoding b ["br"] = if b then "br" else "identity" := by
  cases b <;> decide

/-- C5 amended: on a cacheable MISS the entry written to the cache is
converted against the acceptable-encodings list `["br"]`, so its
`content-encoding` is `br` when brotli is available and `identity` — not
gzip — when it is not (gzip never satisfies `["br"].includes`). -/
theorem missStores_canonical_encoding (ctx : ServerCtx) (cache : Cache)
    (req : ReqM) (route : RouteM) (params : List (String × String))
    (d : HandlerData)
    (hfav : strIncludes req.url "/favicon.ico" = false)
    (hhc : strIncludes req.url "/healthcheck" = false)
    (hm : req.method = "GET")
    (hroute : findMatchedRoute req.url ctx.routes = some (route, params))
    (hcache : ctx.hasCache = true)
    (hrc : route.cache = true)
    (hmiss : cacheGet cache (ctx.getReqId req) = none)
    (hhd : route.handler = .ok d) :
    (cacheGet (serveFetch ctx cache req).cache (ctx.getReqId req)).map
        (fun o => hGet o.headers "content-encoding") =
      some (some (if ctx.canBr then "br" else "identity")) := by
  have hopt : (ctx.corsEnabled && (req.method == "OPTIONS")) = false := by
    rw [hm, show (("GET" : String) == "OPTIONS") = false from rfl, Bool.and_false]
  have hwwc : workWithCache ctx route req = true := by
    unfold workWithCache
    rw [hcache, hrc, hm]
    decide
  obtain ⟨obj, hsd, henc⟩ := serveData_miss ctx cache req route d hwwc hmiss hhd
  rw [serveFetch_routed ctx cache req route params hfav hhc hopt hroute,
    serveRouted_cache_of_ok ctx cache req route _ hsd]
  rw [show (({ obj with headers := hSet obj.headers "x-cache-date" ctx.now },
      cacheSet cache (ctx.getReqId req)
        { obj with headers := hSet obj.headers "x-cache-date" ctx.now },
      ([] : List BgSpawn)) : CObj × Cache × List BgSpawn).2.1 =
    cacheSet cache (ctx.getReqId req)
      { obj with headers := hSet obj.headers "x-cache-date" ctx.now } from rfl]
  rw [cacheGet_cacheSet_self, Option.map_some']
  rw [show ({ obj with headers := hSet obj.headers "x-cache-date" ctx.now } : CObj).headers
      = hSet obj.headers "x-cache-date" ctx.now from rfl]
  rw [hGet_hSet_ne _ _ _ _ (by decide), henc, selectEncoding_br_only]

/-- A server context with brotli unavailable, for the C5 counterexample. -/
def c5xCtx : ServerCtx := ⟨false, [wRoute], true, fun _ => "K", false, idCodec, "T0"⟩

/-- C5 counterexample: with brotli unavailable, the MISS path stores an
`identity`-encoded entry, not a gzip-encoded one, because the store-side
conversion is called with the acceptable list `["br"]` and gzip is not in
it. -/
theorem missStores_canonical_encoding_counterexample :
    (cacheGet (serveFetch c5xCtx [] wReq).cache "K").map
        (fun o => hGet o.headers "content-encoding") = some (some "identity") ∧
    ("identity" : String) ≠ "gzip" := by
  refine ⟨by decide, by decide⟩

/-- Witness for C5's amended theorem at a concrete MISS with brotli
available. -/
theorem missStores_canonical_encoding_witness :
    (cacheGet (serveFetch wCtx [] wReq).cache "K").map
        (fun o => hGet o.headers "content-encoding") = some (some "br") :=
  missStores_canonical_encoding wCtx [] wReq wRoute [] (.str "hello")
    (by decide) (by decide) rfl rfl rfl rfl rfl rfl

/-- C6 amended: serving a HIT leaves the stored entry's body and status
untouched and every other key's entry unchanged — and transcoding, when it
happens, operates on a copy and never reaches the cache — but the claim's
"never mutates the entry" is too strong: the HIT stamping
`data.headers = Array.from(headers.entries())` writes through the alias, so
the hit entry's header list is replaced by its normalized form with
`X-Cache: HIT` added. The cache afterwards is exactly the original with the
hit key's entry re-headed this way. -/
theorem hit_mutation_scope (ctx : ServerCtx) (cache : Cache) (req : ReqM)
    (route : RouteM) (params : List (String × String)) (entry : CObj)
    (hfav : strIncludes req.url "/favicon.ico" = false)
    (hhc : strIncludes req.url "/healthcheck" = false)
    (hm : req.method = "GET")
    (hroute : findMatchedRoute req.url ctx.routes = some (route, params))
    (hcache : ctx.hasCache = true)
    (hrc : route.cache = true)
    (hhit : cacheGet cache (ctx.getReqId req) = some entry)
    (hbody : entry.body ≠ []) :
    (serveFetch ctx cache req).cache =
      cacheSet cache (ctx.getReqId req)
        ⟨entry.body, entry.status, hSet entry.headers "X-Cache" "HIT"⟩ ∧
    (∀ k, k ≠ ctx.getReqId req →
      cacheGet (serveFetch ctx cache req).cache k = cacheGet cache k) := by
  have hopt : (ctx.corsEnabled && (req.method == "OPTIONS")) = false := by
    rw [hm, show (("GET" : String) == "OPTIONS") = false from rfl, Bool.and_false]
  have hwwc : workWithCache ctx route req = true := by
    unfold workWithCache
    rw [hcache, hrc, hm]
    decide
  have hsd := serveData_hit ctx cache req route entry hwwc hhit hbody
  have hc := serveRouted_cache_of_ok ctx cache req route _ hsd
  rw [serveFetch_routed ctx cache req route params hfav hhc hopt hroute]
  refine ⟨hc, ?_⟩
  intro k hk
  rw [hc]
  exact cacheGet_cacheSet_ne cache _ k _ hk

/-- A cached entry with an empty header list, for the C6 scenarios. -/
def c6Entry : CObj := ⟨[65], 200, []⟩

/-- C6 counterexample: after serving a HIT, the stored entry is no longer
what was stored — its header list has gained `x-cache: HIT` — although no
`set` or `delete` was called for that key by the serving path. -/
theorem hit_mutation_counterexample :
    cacheGet [("K", c6Entry)] "K" = some c6Entry ∧
    cacheGet (serveFetch wCtx [("K", c6Entry)] wReq).cache "K" ≠ some c6Entry := by
  refine ⟨by decide, by decide⟩

/-- Witness for C6's amended theorem at a concrete HIT. -/
theorem hit_mutation_scope_witness :
    (serveFetch wCtx [("K", c6Entry)] wReq).cache =
      cacheSet [("K", c6Entry)] "K" ⟨[65], 200, hSet [] "X-Cache" "HIT"⟩ :=
  (hit_mutation_scope wCtx [("K", c6Entry)] wReq wRoute [] c6Entry
    (by decide) (by decide) rfl rfl rfl rfl rfl (by decide)).1

/-- C2 amended: on a cacheable GET HIT with a non-empty stored body, the
client receives the stored body byte-for-byte and `X-Cache: HIT` —
PROVIDED the stored entry's `content-encoding` is among the client's
acceptable encodings; otherwise the body is transcoded first (see the
counterexample), while the `X-Cache: HIT` tag survives either way. -/
theorem hit_serves_stored_body (ctx : ServerCtx) (cache : Cache) (req : ReqM)
    (route : RouteM) (params : List (String × String)) (entry : CObj)
    (hfav : strIncludes req.url "/favicon.ico" = false)
    (hhc : strIncludes req.url "/healthcheck" = false)
    (hm : req.method = "GET")
    (hroute : findMatchedRoute req.url ctx.routes = some (route, params))
    (hcache : ctx.hasCache = true)
    (hrc : route.cache = true)
    (hhit : cacheGet cache (ctx.getReqId req) = some entry)
    (hbody : entry.body ≠ [])
    (henc : (acceptableEncodingsOf req).contains
        (hGetD entry.headers "content-encoding" "identity") = true) :
    (serveFetch ctx cache req).resp.body = entry.body ∧
    hGet (serveFetch ctx cache req).resp.headers "x-cache" = some "HIT" := by
  have hopt : (ctx.corsEnabled && (req.method == "OPTIONS")) = false := by
    rw [hm, show (("GET" : String) == "OPTIONS") = false from rfl, Bool.and_false]
  have hwwc : workWithCache ctx route req = true := by
    unfold workWithCache
    rw [hcache, hrc, hm]
    decide
  have hsd := serveData_hit ctx cache req route entry hwwc hhit hbody
  have hresp : respPhase ctx (acceptableEncodingsOf req)
      ⟨entry.body, entry.status, hSet entry.headers "X-Cache" "HIT"⟩ =
      .ok ⟨entry.status, setCORSHeaders (hCanon (hSet entry.headers "X-Cache" "HIT")),
        entry.body⟩ := by
    unfold respPhase
    rw [show (⟨entry.body, entry.status, hSet entry.headers "X-Cache" "HIT"⟩ : CObj).headers
        = hSet entry.headers "X-Cache" "HIT" from rfl,
      hGetD_hSet_ne _ _ _ _ _ (by decide)]
    simp only [henc, if_true]
    rw [show (⟨entry.body, entry.status, hSet entry.headers "X-Cache" "HIT"⟩ : CObj).body
        = entry.body from rfl, if_neg hbody,
      hGetD_hSet_same _ _ _ _ _ (by decide)]
    rw [if_neg (show ¬(if ("HIT" : String) = "" then "" else "HIT") = "" by decide)]
  have hrr := serveRouted_resp_of_ok ctx cache req route _ _ hsd hresp
  rw [serveFetch_routed ctx cache req route params hfav hhc hopt hroute, hrr]
  refine ⟨rfl, ?_⟩
  show hGet (setCORSHeaders (hCanon (hSet entry.headers "X-Cache" "HIT"))) "x-cache"
      = some "HIT"
  unfold setCORSHeaders
  rw [hGet_hCanon, hGet_hSet_same _ _ _ _ (by decide)]

/-- The stored entry for the C2 witness: identity-encoded. -/
def c2wEntry : CObj := ⟨[65], 200, [("content-encoding", "identity")]⟩

/-- Witness for C2's amended theorem at a concrete acceptable HIT. -/
theorem hit_serves_stored_body_witness :
    (serveFetch wCtx [("K", c2wEntry)] wReq).resp.body = c2wEntry.body ∧
    hGet (serveFetch wCtx [("K", c2wEntry)] wReq).resp.headers "x-cache" =
      some "HIT" :=
  hit_serves_stored_body wCtx [("K", c2wEntry)] wReq wRoute [] c2wEntry
    (by decide) (by decide) rfl rfl rfl rfl rfl (by decide) (by decide)

/-- A codec whose gzip encoder prepends a marker byte (and whose decoder
strips it — a faithful round-tripping pair), for the C2 counterexample. -/
def c2xCodec : Codec := ⟨id, id, fun b => 31 :: b, fun b => b.drop 1, id, id⟩

/-- The stored entry for the C2 counterexample: brotli-encoded. -/
def c2xEntry : CObj := ⟨[65], 200, [("content-encoding", "br")]⟩

/-- The C2 counterexample context and request: brotli-encoded entry, client
accepting only gzip. -/
def c2xCtx : ServerCtx := ⟨false, [wRoute], true, fun _ => "K", true, c2xCodec, "T0"⟩

/-- The C2 counterexample request. -/
def c2xReq : ReqM := ⟨"http://h/p", "GET", [("accept-encoding", "gzip")]⟩

/-- C2 counterexample: a cacheable GET HIT with a non-empty stored body is
answered with `X-Cache: HIT` but NOT with the stored bytes: the stored
entry is brotli-encoded, the client accepts only gzip, and the response
body is the transcoded copy. -/
theorem hit_serves_stored_body_counterexample :
    cacheGet [("K", c2xEntry)] "K" = some c2xEntry ∧
    c2xEntry.body ≠ [] ∧
    hGet (serveFetch c2xCtx [("K", c2xEntry)] c2xReq).resp.headers "x-cache" =
      some "HIT" ∧
    (serveFetch c2xCtx [("K", c2xEntry)] c2xReq).resp.body ≠ c2xEntry.body := by
  refine ⟨by decide, by decide, by decide, by decide⟩

/-! ### Lemmas for the persistence round trip (C9) -/

theorem readU32_u32le_append (n : Nat) (h : n < 4294967296) (r : Bytes) :
    readU32 (u32le n ++ r) = n := by
  show n % 256 + n / 256 % 256 * 256 + n / 65536 % 256 * 65536 +
    n / 16777216 % 256 * 16777216 = n
  omega

theorem drop4_u32le (n : Nat) (r : Bytes) : (u32le n ++ r).drop 4 = r := rfl

theorem drop4_i32le (n : Int) (r : Bytes) : (i32le n ++ r).drop 4 = r := rfl

theorem readI32_i32le_append (st : Int) (h0 : 0 ≤ st) (h1 : st < 2147483648)
    (r : Bytes) : readI32 (i32le st ++ r) = st := by
  unfold readI32 i32le
  rw [readU32_u32le_append _ (by omega) r]
  show (if (st % 4294967296).toNat < 2147483648 then (((st % 4294967296).toNat : Nat) : Int)
      else ((st % 4294967296).toNat : Int) - 4294967296) = st
  split <;> omega

theorem deserializeLoop_nil (fuel : Nat) : deserializeLoop fuel [] = [] := by
  cases fuel <;> simp [deserializeLoop]

theorem splitOnChar_ne_nil (c : Char) (l : List Char) : splitOnChar c l ≠ [] := by
  cases l with
  | nil => simp [splitOnChar]
  | cons x r =>
    show (match splitOnChar c r with
      | h :: t => if x = c then [] :: h :: t else (x :: h) :: t
      | [] => [[x]]) ≠ []
    cases hs : splitOnChar c r with
    | nil => simp
    | cons a t =>
      show (if x = c then [] :: a :: t else (x :: a) :: t) ≠ []
      split <;> simp

theorem splitOnChar_of_not_mem (c : Char) (l : List Char) (h : c ∉ l) :
    splitOnChar c l = [l] := by
  induction l with
  | nil => rfl
  | cons x r ih =>
    have hx : x ≠ c := fun hc => h (hc ▸ List.mem_cons_self x r)
    have hr : c ∉ r := fun hc => h (List.mem_cons_of_mem x hc)
    show (match splitOnChar c r with
      | h :: t => if x = c then [] :: h :: t else (x :: h) :: t
      | [] => [[x]]) = [x :: r]
    rw [ih hr]
    show (if x = c then [] :: r :: [] else (x :: r) :: []) = [x :: r]
    rw [if_neg hx]

theorem splitOnChar_append (c : Char) (l1 l2 : List Char) (h : c ∉ l1) :
    splitOnChar c (l1 ++ c :: l2) = l1 :: splitOnChar c l2 := by
  induction l1 with
  | nil =>
    show (match splitOnChar c l2 with
      | h :: t => if c = c then [] :: h :: t else (c :: h) :: t
      | [] => [[c]]) = [] :: splitOnChar c l2
    cases hs : splitOnChar c l2 with
    | nil => exact absurd hs (splitOnChar_ne_nil c l2)
    | cons a t =>
      show (if c = c then [] :: a :: t else (c :: a) :: t) = [] :: a :: t
      rw [if_pos rfl]
  | cons x r ih =>
    have hx : x ≠ c := fun hc => h (hc ▸ List.mem_cons_self x r)
    have hr : c ∉ r := fun hc => h (List.mem_cons_of_mem x hc)
    show (match splitOnChar c (r ++ c :: l2) with
      | h :: t => if x = c then [] :: h :: t else (x :: h) :: t
      | [] => [[x]]) = (x :: r) :: splitOnChar c l2
    rw [ih hr]
    show (if x = c then [] :: r :: splitOnChar c l2 else (x :: r) :: splitOnChar c l2)
        = (x :: r) :: splitOnChar c l2
    rw [if_neg hx]

theorem strSplitChar_of_not_mem (s : String) (c : Char) (h : c ∉ s.data) :
    strSplitChar s c = [s] := by
  unfold strSplitChar
  rw [splitOnChar_of_not_mem c s.data h]
  rfl

theorem strSplitChar_colon (n v : String) (hn : ':' ∉ n.data) (hv : ':' ∉ v.data) :
    strSplitChar (n ++ ":" ++ v) ':' = [n, v] := by
  have hd : (n ++ ":" ++ v).data = n.data ++ ':' :: v.data := by
    rw [String.data_append, String.data_append, List.append_assoc]
    rfl
  unfold strSplitChar
  rw [hd, splitOnChar_append _ _ _ hn, splitOnChar_of_not_mem _ _ hv]
  rfl

/-- A dump header pair whose name and value are free of the two separator
characters the sidecar format reuses. -/
def pairOk (p : String × String) : Prop :=
  ':' ∉ p.1.data ∧ ':' ∉ p.2.data ∧ '\n' ∉ p.1.data ∧ '\n' ∉ p.2.data

instance (p : String × String) : Decidable (pairOk p) := by
  unfold pairOk
  infer_instance

theorem line_no_newline (p : String × String) (h : pairOk p) :
    '\n' ∉ (p.1 ++ ":" ++ p.2).data := by
  have hd : (p.1 ++ ":" ++ p.2).data = p.1.data ++ ':' :: p.2.data := by
    rw [String.data_append, String.data_append, List.append_assoc]
    rfl
  rw [hd]
  intro hm
  rcases List.mem_append.1 hm with h1 | h2
  · exact h.2.2.1 h1
  · rcases List.mem_cons.1 h2 with h3 | h4
    · exact absurd h3 (by decide)
    · exact h.2.2.2 h4

theorem headers_split (hs : List (String × String)) (hne : hs ≠ [])
    (hok : ∀ p ∈ hs, pairOk p) :
    (strSplitChar (headersLines hs) '\n').map (fun line => strSplitChar line ':') =
      hs.map (fun p => [p.1, p.2]) := by
  induction hs with
  | nil => exact absurd rfl hne
  | cons p r ih =>
    have hp := hok p (List.mem_cons_self _ _)
    cases r with
    | nil =>
      show (strSplitChar (p.1 ++ ":" ++ p.2) '\n').map
          (fun line => strSplitChar line ':') = [[p.1, p.2]]
      rw [strSplitChar_of_not_mem _ _ (line_no_newline p hp), List.map_cons,
        List.map_nil, strSplitChar_colon _ _ hp.1 hp.2.1]
    | cons q r' =>
      have hrest : ∀ x ∈ q :: r', pairOk x :=
        fun x hx => hok x (List.mem_cons_of_mem p hx)
      have hdl : (headersLines (p :: q :: r')).data =
          (p.1 ++ ":" ++ p.2).data ++ '\n' :: (headersLines (q :: r')).data := by
        show ((p.1 ++ ":" ++ p.2) ++ "\n" ++ headersLines (q :: r')).data = _
        rw [String.data_append, String.data_append, List.append_assoc]
        rfl
      unfold strSplitChar
      rw [hdl, splitOnChar_append _ _ _ (line_no_newline p hp), List.map_cons,
        List.map_cons, List.map_cons]
      refine congrArg₂ _ ?_ ?_
      · show strSplitChar (p.1 ++ ":" ++ p.2) ':' = [p.1, p.2]
        exact strSplitChar_colon _ _ hp.1 hp.2.1
      · exact ih (by simp) hrest

/-- C9 amended: the round trip holds for dumps of a SINGLE entry with a
non-empty header list whose names and values avoid `:` and newline, a
status in 31 bits, and in-range length fields. (The multi-entry case and
colon-carrying values fail: see the counterexample.) -/
theorem storage_roundtrip_single (e : SEntry)
    (hne : e.headers ≠ [])
    (hok : ∀ p ∈ e.headers, pairOk p)
    (h0 : 0 ≤ e.status) (h1 : e.status < 2147483648)
    (hkey : (strBytes e.key).length < 4294967296)
    (hhdr : (strBytes (headersLines e.headers)).length < 4294967296) :
    dumpMatches [e] (deserializeFromFile (serializeToFile [e])) := by
  have hser : serializeToFile [e] = serializeItem e := by
    show (List.map serializeItem [e]).flatten = serializeItem e
    simp
  have hitem : serializeItem e =
      u32le (strBytes e.key).length ++ (strBytes e.key ++
        (u32le (strBytes (headersLines e.headers)).length ++
          (strBytes (headersLines e.headers) ++ (i32le e.status ++ e.body)))) := by
    unfold serializeItem
    simp [List.append_assoc]
  have hLne : serializeItem e ≠ [] := by
    rw [hitem]
    simp [u32le]
  have hstep : deserializeFromFile (serializeItem e) =
      [⟨e.key, e.status,
        (strSplitChar (headersLines e.headers) '\n').map
          (fun line => strSplitChar line ':'),
        e.body,
        e.body.length + (strBytes (headersLines e.headers)).length + 8 +
          (strBytes e.key).length + 4⟩] := by
    unfold deserializeFromFile
    rw [deserializeLoop, if_neg hLne]
    conv_lhs => rw [hitem]
    simp only [readU32_u32le_append _ hkey, readU32_u32le_append _ hhdr,
      drop4_u32le, List.take_left, List.drop_left, bytesStr_strBytes,
      readI32_i32le_append _ h0 h1, drop4_i32le, List.take_length,
      List.drop_length, deserializeLoop_nil]
  rw [hser, hstep]
  unfold dumpMatches
  simp only [List.map_cons, List.map_nil]
  rw [headers_split e.headers hne hok]

/-- The first entry of the C9 two-entry counterexample dump. -/
def c9e1 : SEntry := ⟨"k1", 200, [("content-type", "text/plain")], [65], 100⟩

/-- The second entry of the C9 two-entry counterexample dump. -/
def c9e2 : SEntry := ⟨"k2", 200, [("content-type", "text/plain")], [66], 100⟩

/-- C9 counterexample: the sidecar format has no body-length field, so the
deserializer reads `data.length - offset` bytes as the first entry's body;
a two-entry dump round-trips to a SINGLE entry whose body has swallowed the
whole serialization of the second entry. -/
theorem storage_roundtrip_counterexample :
    ¬ dumpMatches [c9e1, c9e2]
        (deserializeFromFile (serializeToFile [c9e1, c9e2])) ∧
    (deserializeFromFile (serializeToFile [c9e1, c9e2])).length = 1 := by
  refine ⟨by decide, by decide⟩

/-- A well-behaved single dump entry for the C9 witness. -/
def c9wEntry : SEntry :=
  ⟨"req:u:abc", 200, [("content-type", "text/plain")], [65, 66], 100⟩

/-- Witness for C9's amended theorem at a concrete single-entry dump. -/
theorem storage_roundtrip_single_witness :
    dumpMatches [c9wEntry] (deserializeFromFile (serializeToFile [c9wEntry])) :=
  storage_roundtrip_single c9wEntry (by decide) (by decide) (by decide)
    (by decide) (by decide) (by decide)

end Bunblaze
